import Mathlib

/-!
Verification of the clearing & settlement engine of the virtual energy
trading application: `src/utils/clearing.ts` (`clearBids`, `shouldBidClear`,
`calculateTotalPnL`, `calculateTotalClearedQty`, `getClearingSummary`),
`src/utils/time.ts` (`averageRTToHourly`, `getCutoffTime`, `getCutoffStatus`)
and the zustand bid store (`src/store`: `addBid`, `removeBid`, `clearBids`,
`resetForNewDate`).

Modelling conventions:
* Timestamps: the TypeScript code carries ISO-8601 strings in market-local
  time and compares them as strings.  Within one trading day all such strings
  share a single UTC offset, so string equality and lexicographic order agree
  with instant equality and chronological order.  We therefore model every
  timestamp as an `Int`: minutes since the epoch (the instant the string
  denotes).  A timezone is a fixed offset in minutes east of UTC; the
  America/Chicago market zone is modelled at its standard offset UTC-6.
* Prices and quantities: JavaScript numbers used for exact decimal test
  values; modelled as `ℚ`.
* JS `Map` built by successive `set` calls: lookup is last-write-wins,
  modelled as `(filter ...).getLast?`.
* JS `Set` built by successive `add` calls: insertion-ordered deduplication,
  modelled by folding `setAdd` below.
* `Array.prototype.sort` with comparator on the timestamp strings: modelled
  by `List.insertionSort` on the `≤` order of the instants (any stable
  comparison sort; the sorted records have pairwise distinct keys, so every
  comparison sort produces this list).
-/

/-- `MARKET_TIMEZONE = "America/Chicago"`, modelled as a fixed offset of
-360 minutes east of UTC (standard time). -/
def MARKET_TZ_OFFSET : Int := -360

/-- Bid side enum (`BidSideSchema = z.enum(["BUY", "SELL"])`). -/
inductive Side where
  | BUY
  | SELL
deriving DecidableEq

/-- A bid (`BidSchema`): id, hour start (market-local top of hour, modelled
as the instant in minutes), side, limit price (USD/MWh) and quantity (MWh). -/
structure Bid where
  id : String
  hourStart : Int
  side : Side
  price : ℚ
  qtyMWh : ℚ
deriving DecidableEq

/-- A market price observation (`MarketPriceSchema`).  The engine keys on
`datetime_beginning_ept`; `datetime_beginning_utc` denotes the same instant
rendered in UTC and is never read by the engine. -/
structure MarketPrice where
  datetime_beginning_ept : Int
  datetime_beginning_utc : Int
  settlement_point : String
  settlement_point_price : ℚ
deriving DecidableEq

/-- Per-hour clearing result (`HourlyClearSchema`): nullable DA price,
nullable average RT price, signed cleared quantity, P&L. -/
structure HourlyClear where
  hourStart : Int
  daPrice : Option ℚ
  avgRtPrice : Option ℚ
  clearedQty : ℚ
  pnl : ℚ
deriving DecidableEq

/-- Output record of `averageRTToHourly`. -/
structure HourlyAverage where
  hourStart : Int
  avgPrice : ℚ
  settlement_point : String
deriving DecidableEq

/-- JS `Set.add`: append the element unless it is already present. -/
def setAdd (l : List Int) (x : Int) : List Int :=
  if x ∈ l then l else l ++ [x]

/-- `DateTime.fromISO(ts).setZone(MARKET_TIMEZONE).startOf("hour")` for an
instant `t`: the instant at which the market-local clock hour containing `t`
begins. -/
def hourStartOf (t : Int) : Int := t - (t + MARKET_TZ_OFFSET) % 60

/-- `averageRTToHourly` (src/utils/time.ts): group the RT samples by the
market-local clock hour of their timestamp, output one record per group with
the unweighted arithmetic mean of the group's prices and the settlement point
of the group's first member, sorted ascending by hour start.  Group keys are
collected in insertion order (JS `Map`), each group is the in-order sublist
of samples with that key, and groups are nonempty by construction. -/
def averageRTToHourly (rtData : List MarketPrice) : List HourlyAverage :=
  let keys := (rtData.map (fun p => hourStartOf p.datetime_beginning_ept)).foldl setAdd []
  let hourlyAverages := keys.map (fun h =>
    let points := rtData.filter (fun p => hourStartOf p.datetime_beginning_ept == h)
    { hourStart := h
      avgPrice := (points.map (fun p => p.settlement_point_price)).sum / (points.length : ℚ)
      settlement_point := ((points.head?).map (fun p => p.settlement_point)).getD "" })
  hourlyAverages.insertionSort (fun a b => a.hourStart ≤ b.hourStart)

/-- `shouldBidClear` (src/utils/clearing.ts): BUY clears iff limit ≥ DA
price, SELL clears iff limit ≤ DA price (the TS `default: return false`
branch is unreachable for the two-constructor enum). -/
def shouldBidClear (bid : Bid) (daPrice : ℚ) : Bool :=
  match bid.side with
  | Side.BUY => decide (bid.price ≥ daPrice)
  | Side.SELL => decide (bid.price ≤ daPrice)

/-- The signed quantity a clearing bid contributes:
`bid.side === "BUY" ? bid.qtyMWh : -bid.qtyMWh`. -/
def qtyContribution (bid : Bid) : ℚ :=
  match bid.side with
  | Side.BUY => bid.qtyMWh
  | Side.SELL => -bid.qtyMWh

/-- The set of output hours of `clearBids`: hours of bids, then DA price
hours, deduplicated in insertion order (the JS `Set` named `allHours`). -/
def allClearingHours (bids : List Bid) (daHourlyPrices : List MarketPrice) : List Int :=
  (bids.map (fun b => b.hourStart) ++
    daHourlyPrices.map (fun p => p.datetime_beginning_ept)).foldl setAdd []

/-- Body of the `allHours.forEach` loop of `clearBids`: the `HourlyClear`
record produced for one hour.  DA and RT lookups are last-write-wins over
the respective price lists (JS `Map` overwrite semantics); the cleared
quantity accumulates the signed contribution of every clearing bid of the
hour, and is 0 when the DA price is absent. -/
def clearHour (bids : List Bid) (daHourlyPrices : List MarketPrice)
    (rtHourlyAverages : List HourlyAverage) (hourStart : Int) : HourlyClear :=
  let hourBids := bids.filter (fun b => b.hourStart == hourStart)
  let daPrice :=
    ((daHourlyPrices.filter (fun p => p.datetime_beginning_ept == hourStart)).getLast?).map
      (fun p => p.settlement_point_price)
  let avgRtPrice :=
    ((rtHourlyAverages.filter (fun a => a.hourStart == hourStart)).getLast?).map
      (fun a => a.avgPrice)
  let clearedQty :=
    match daPrice with
    | none => 0
    | some d =>
        hourBids.foldl
          (fun acc bid => if shouldBidClear bid d then acc + qtyContribution bid else acc) 0
  let pnl :=
    match daPrice, avgRtPrice with
    | some d, some r => if clearedQty ≠ 0 then clearedQty * (r - d) else 0
    | _, _ => 0
  { hourStart := hourStart, daPrice := daPrice, avgRtPrice := avgRtPrice,
    clearedQty := clearedQty, pnl := pnl }

/-- `clearBids` (src/utils/clearing.ts): average the 5-minute RT prices to
hourly, enumerate the hours having a bid or a DA price, produce one
`HourlyClear` per such hour and sort ascending by hour start. -/
def clearBids (bids : List Bid) (daHourlyPrices rtFiveMinPrices : List MarketPrice) :
    List HourlyClear :=
  let rtHourlyAverages := averageRTToHourly rtFiveMinPrices
  let hourlyClears :=
    (allClearingHours bids daHourlyPrices).map
      (clearHour bids daHourlyPrices rtHourlyAverages)
  hourlyClears.insertionSort (fun a b => a.hourStart ≤ b.hourStart)

/-- `calculateTotalPnL`: left fold of the per-hour P&L values. -/
def calculateTotalPnL (hourlyClears : List HourlyClear) : ℚ :=
  hourlyClears.foldl (fun total c => total + c.pnl) 0

/-- `calculateTotalClearedQty`: left fold of the absolute cleared
quantities. -/
def calculateTotalClearedQty (hourlyClears : List HourlyClear) : ℚ :=
  hourlyClears.foldl (fun total c => total + |c.clearedQty|) 0

/-- Return type of `getClearingSummary`. -/
structure ClearingSummary where
  totalPnL : ℚ
  totalClearedQty : ℚ
  longQty : ℚ
  shortQty : ℚ
  hoursWithPositions : Nat
  hoursWithPnL : Nat
  avgPnLPerHour : ℚ
deriving DecidableEq

/-- `getClearingSummary` (src/utils/clearing.ts). -/
def getClearingSummary (hourlyClears : List HourlyClear) : ClearingSummary :=
  let totalPnL := calculateTotalPnL hourlyClears
  let totalClearedQty := calculateTotalClearedQty hourlyClears
  let hoursWithPositions := (hourlyClears.filter (fun c => decide (c.clearedQty ≠ 0))).length
  let hoursWithPnL := (hourlyClears.filter (fun c => decide (c.pnl ≠ 0))).length
  let longQty :=
    (hourlyClears.filter (fun c => decide (0 < c.clearedQty))).foldl
      (fun sum c => sum + c.clearedQty) 0
  let shortQty :=
    (hourlyClears.filter (fun c => decide (c.clearedQty < 0))).foldl
      (fun sum c => sum + |c.clearedQty|) 0
  { totalPnL := totalPnL
    totalClearedQty := totalClearedQty
    longQty := longQty
    shortQty := shortQty
    hoursWithPositions := hoursWithPositions
    hoursWithPnL := hoursWithPnL
    avgPnLPerHour := if 0 < hoursWithPnL then totalPnL / (hoursWithPnL : ℚ) else 0 }

/-- `CUTOFF_HOUR = 11` (src/utils/time.ts). -/
def CUTOFF_HOUR : Int := 11

/-- `CUTOFF_MINUTE = 0` (src/utils/time.ts). -/
def CUTOFF_MINUTE : Int := 0

/-- A luxon `DateTime` in the fixed-offset model: the instant it denotes
(minutes since epoch) and the offset of the zone it is viewed in (minutes
east of UTC).  `>` on luxon DateTimes compares instants. -/
structure ZonedDateTime where
  instant : Int
  offset : Int
deriving DecidableEq

/-- `DateTime.fromISO(dateStr)` for a bare calendar date `day` (a day
number): luxon interprets it as 00:00 local time in the RUNTIME's default
zone, here of offset `systemOffset`. -/
def fromISODate (systemOffset : Int) (day : Int) : ZonedDateTime :=
  { instant := day * 1440 - systemOffset, offset := systemOffset }

/-- `.setZone(...)`: keeps the instant, changes the viewing offset. -/
def setZone (dt : ZonedDateTime) (off : Int) : ZonedDateTime :=
  { instant := dt.instant, offset := off }

/-- `.set({ hour, minute, second: 0, millisecond: 0 })`: replace the
time-of-day of the local calendar date the instant falls on, keeping the
zone. -/
def dtSetHourMinute (dt : ZonedDateTime) (hour minute : Int) : ZonedDateTime :=
  let localMinutes := dt.instant + dt.offset
  let localDay := localMinutes / 1440
  { instant := localDay * 1440 + hour * 60 + minute - dt.offset, offset := dt.offset }

/-- `getCutoffTime` (src/utils/time.ts): parse the trading date (in the
runtime's default zone), convert to the market zone, set 11:00:00.000. -/
def getCutoffTime (systemOffset : Int) (tradingDate : Int) : ZonedDateTime :=
  dtSetHourMinute (setZone (fromISODate systemOffset tradingDate) MARKET_TZ_OFFSET)
    CUTOFF_HOUR CUTOFF_MINUTE

/-- `CutoffStatus` (src/types), instants in place of the ISO strings; the
derived display string is not modelled. -/
structure CutoffStatus where
  isCutoffPassed : Bool
  cutoffTime : Int
  currentTime : Int
deriving DecidableEq

/-- `getCutoffStatus` (src/utils/time.ts): `isCutoffPassed` is the strict
comparison `currentTime > cutoffTime` of instants; `now` is the current
instant supplied by the ambient clock. -/
def getCutoffStatus (now : Int) (systemOffset : Int) (tradingDate : Int) : CutoffStatus :=
  let cutoffTime := getCutoffTime systemOffset tradingDate
  { isCutoffPassed := decide (cutoffTime.instant < now)
    cutoffTime := cutoffTime.instant
    currentTime := now }

/-- The market-local calendar day an instant falls on. -/
def marketLocalDay (t : Int) : Int := (t + MARKET_TZ_OFFSET) / 1440

/-- The market-local minute-of-day of an instant. -/
def marketLocalMinuteOfDay (t : Int) : Int := (t + MARKET_TZ_OFFSET) % 1440

namespace Store

/-- The slice of the zustand store state (src/store) touched by the bid
actions: the bid list, the fetched market data, the clearing results and the
error message.  `marketSelection` and `isLoading` are read nor written by
none of the four actions modelled below and are omitted. -/
structure State where
  bids : List Bid
  daHourly : List MarketPrice
  rtFiveMin : List MarketPrice
  hourlyClears : List HourlyClear
  error : Option String
deriving DecidableEq

/-- `initialState` (src/store): empty bid list, empty market data, no
clearing results, no error. -/
def initialState : State :=
  { bids := [], daHourly := [], rtFiveMin := [], hourlyClears := [], error := none }

/-- `addBid` (src/store): the new bid is `bidData` with a fresh generated id
(`crypto.randomUUID()` in the source; here the id is supplied by the
environment as `newId`).  If the state already holds 10 or more bids for the
new bid's hour, the state is returned with an error message and the bid list
untouched; otherwise the bid is appended and the error cleared. -/
def addBid (state : State) (bidData : Bid) (newId : String) : State :=
  let bid : Bid := { bidData with id := newId }
  let existingBidsForHour := state.bids.filter (fun b => b.hourStart == bid.hourStart)
  if 10 ≤ existingBidsForHour.length then
    { state with error := some "Maximum 10 bids per hour allowed" }
  else
    { state with bids := state.bids ++ [bid], error := none }

/-- `removeBid` (src/store): keep every bid whose id differs. -/
def removeBid (state : State) (bidId : String) : State :=
  { state with bids := state.bids.filter (fun bid => bid.id != bidId) }

/-- `clearBids` (src/store): empty the bid list. -/
def clearBids (state : State) : State :=
  { state with bids := [] }

/-- `resetForNewDate` (src/store): empty bids, market data and clearing
results, clear the error. -/
def resetForNewDate (state : State) : State :=
  { state with
    bids := []
    daHourly := []
    rtFiveMin := []
    hourlyClears := []
    error := none }

/-- States of the bid store reachable from `initialState` by the four bid
mutating actions. -/
inductive Reachable : State → Prop where
  | init : Reachable initialState
  | addBid (s : State) (bidData : Bid) (newId : String) :
      Reachable s → Reachable (addBid s bidData newId)
  | removeBid (s : State) (bidId : String) :
      Reachable s → Reachable (removeBid s bidId)
  | clearBids (s : State) : Reachable s → Reachable (clearBids s)
  | resetForNewDate (s : State) : Reachable s → Reachable (resetForNewDate s)

end Store

/-! Helper lemmas about the JS `Set` model and the folds of the engine. -/

theorem mem_setAdd {l : List Int} {a x : Int} : x ∈ setAdd l a ↔ x ∈ l ∨ x = a := by
  unfold setAdd
  split
  · next h => exact ⟨Or.inl, fun hx => hx.elim id (fun he => he ▸ h)⟩
  · simp

theorem mem_foldl_setAdd (l init : List Int) (x : Int) :
    x ∈ l.foldl setAdd init ↔ x ∈ init ∨ x ∈ l := by
  induction l generalizing init with
  | nil => simp
  | cons a t ih =>
    rw [List.foldl_cons, ih, mem_setAdd, List.mem_cons]
    tauto

theorem nodup_setAdd {l : List Int} {a : Int} (h : l.Nodup) : (setAdd l a).Nodup := by
  unfold setAdd
  split
  · exact h
  · next hna => simp [List.nodup_append, h, List.disjoint_singleton, hna]

theorem nodup_foldl_setAdd (l : List Int) (init : List Int) (h : init.Nodup) :
    (l.foldl setAdd init).Nodup := by
  induction l generalizing init with
  | nil => exact h
  | cons a t ih => exact ih _ (nodup_setAdd h)

theorem foldl_add_map_sum {α : Type} (f : α → ℚ) (l : List α) (a : ℚ) :
    l.foldl (fun acc x => acc + f x) a = a + (l.map f).sum := by
  induction l generalizing a with
  | nil => simp
  | cons x t ih => simp [ih, add_assoc]

theorem foldl_ite_add_map_sum {α : Type} (c : α → Bool) (q : α → ℚ) (l : List α) (a : ℚ) :
    l.foldl (fun acc x => if c x then acc + q x else acc) a
      = a + (l.map (fun x => if c x then q x else 0)).sum := by
  induction l generalizing a with
  | nil => simp
  | cons x t ih => by_cases h : c x <;> simp [h, ih, add_assoc]

/-! Structure of the `clearBids` output. -/

theorem clearBids_perm (bids : List Bid) (da rt : List MarketPrice) :
    (clearBids bids da rt).Perm
      ((allClearingHours bids da).map (clearHour bids da (averageRTToHourly rt))) := by
  unfold clearBids
  exact List.perm_insertionSort _ _

theorem clearHour_hourStart (bids : List Bid) (da : List MarketPrice)
    (rtAvgs : List HourlyAverage) (h : Int) :
    (clearHour bids da rtAvgs h).hourStart = h := rfl

theorem mem_clearBids_iff {bids : List Bid} {da rt : List MarketPrice} {rec : HourlyClear} :
    rec ∈ clearBids bids da rt ↔
      ∃ h ∈ allClearingHours bids da, rec = clearHour bids da (averageRTToHourly rt) h := by
  rw [(clearBids_perm bids da rt).mem_iff, List.mem_map]
  constructor
  · rintro ⟨h, hmem, rfl⟩
    exact ⟨h, hmem, rfl⟩
  · rintro ⟨h, hmem, rfl⟩
    exact ⟨h, hmem, rfl⟩

theorem mem_allClearingHours {bids : List Bid} {da : List MarketPrice} {h : Int} :
    h ∈ allClearingHours bids da ↔
      (∃ b ∈ bids, b.hourStart = h) ∨ ∃ p ∈ da, p.datetime_beginning_ept = h := by
  unfold allClearingHours
  rw [mem_foldl_setAdd]
  simp [List.mem_append, List.mem_map]

theorem clearHour_daPrice (bids : List Bid) (da : List MarketPrice)
    (rtAvgs : List HourlyAverage) (h : Int) :
    (clearHour bids da rtAvgs h).daPrice
      = ((da.filter (fun p => p.datetime_beginning_ept == h)).getLast?).map
          (fun p => p.settlement_point_price) := rfl

theorem clearHour_avgRtPrice (bids : List Bid) (da : List MarketPrice)
    (rtAvgs : List HourlyAverage) (h : Int) :
    (clearHour bids da rtAvgs h).avgRtPrice
      = ((rtAvgs.filter (fun a => a.hourStart == h)).getLast?).map
          (fun a => a.avgPrice) := rfl

theorem clearHour_clearedQty (bids : List Bid) (da : List MarketPrice)
    (rtAvgs : List HourlyAverage) (h : Int) :
    (clearHour bids da rtAvgs h).clearedQty
      = match (clearHour bids da rtAvgs h).daPrice with
        | none => 0
        | some d =>
            (bids.filter (fun b => b.hourStart == h)).foldl
              (fun acc bid => if shouldBidClear bid d then acc + qtyContribution bid else acc)
              0 := rfl

theorem clearHour_pnl (bids : List Bid) (da : List MarketPrice)
    (rtAvgs : List HourlyAverage) (h : Int) :
    (clearHour bids da rtAvgs h).pnl
      = match (clearHour bids da rtAvgs h).daPrice, (clearHour bids da rtAvgs h).avgRtPrice with
        | some d, some r =>
            if (clearHour bids da rtAvgs h).clearedQty ≠ 0
            then (clearHour bids da rtAvgs h).clearedQty * (r - d) else 0
        | _, _ => 0 := rfl

theorem shouldBidClear_iff (b : Bid) (d : ℚ) :
    shouldBidClear b d = true
      ↔ ((b.side = Side.BUY ∧ d ≤ b.price) ∨ (b.side = Side.SELL ∧ b.price ≤ d)) := by
  unfold shouldBidClear
  cases hb : b.side <;> simp [hb, ge_iff_le]

/-- C1: every bid clears against a present DA price by the inclusive
limit-order rule — BUY iff `daPrice ≤ bid.price`, SELL iff
`bid.price ≤ daPrice`, a price equal to the DA price clears either side —
and the hour's signed cleared quantity is the sum, over the bids of that
hour, of the full `+qtyMWh` (BUY) or `-qtyMWh` (SELL) of exactly the bids
satisfying that rule. -/
theorem clearing_rule_inclusive (bids : List Bid) (da rt : List MarketPrice)
    (rec : HourlyClear) (d : ℚ)
    (hmem : rec ∈ clearBids bids da rt) (hda : rec.daPrice = some d) :
    (∀ b : Bid,
        (shouldBidClear b d = true
          ↔ ((b.side = Side.BUY ∧ d ≤ b.price) ∨ (b.side = Side.SELL ∧ b.price ≤ d)))
      ∧ (b.price = d → shouldBidClear b d = true))
  ∧ rec.clearedQty
      = ((bids.filter (fun b => b.hourStart == rec.hourStart)).map
          (fun b =>
            if (b.side = Side.BUY ∧ d ≤ b.price) ∨ (b.side = Side.SELL ∧ b.price ≤ d)
            then qtyContribution b else 0)).sum := by
  constructor
  · intro b
    refine ⟨shouldBidClear_iff b d, fun hpd => ?_⟩
    rw [shouldBidClear_iff]
    cases hb : b.side
    · exact Or.inl ⟨rfl, le_of_eq hpd.symm⟩
    · exact Or.inr ⟨rfl, le_of_eq hpd⟩
  · obtain ⟨h, hh, rfl⟩ := mem_clearBids_iff.1 hmem
    rw [clearHour_hourStart, clearHour_clearedQty, hda]
    show List.foldl
        (fun acc bid => if shouldBidClear bid d then acc + qtyContribution bid else acc) 0
        (List.filter (fun b => b.hourStart == h) bids) = _
    rw [foldl_ite_add_map_sum, zero_add]
    refine congrArg List.sum (List.map_congr_left fun b _ => ?_)
    exact if_congr (shouldBidClear_iff b d) rfl rfl

/-- C2: in every `clearBids` output record, `pnl` equals
`clearedQty * (avgRtPrice - daPrice)` exactly when both prices are present
and `clearedQty` is nonzero, and equals 0 in every other case. -/
theorem pnl_formula (bids : List Bid) (da rt : List MarketPrice) (rec : HourlyClear)
    (hmem : rec ∈ clearBids bids da rt) :
    (∀ d r : ℚ, rec.daPrice = some d → rec.avgRtPrice = some r → rec.clearedQty ≠ 0 →
        rec.pnl = rec.clearedQty * (r - d))
  ∧ ((rec.daPrice = none ∨ rec.avgRtPrice = none ∨ rec.clearedQty = 0) → rec.pnl = 0) := by
  obtain ⟨h, hh, rfl⟩ := mem_clearBids_iff.1 hmem
  constructor
  · intro d r hd hr hq
    rw [clearHour_pnl, hd, hr]
    simp [hq]
  · intro hcase
    rw [clearHour_pnl]
    rcases hcase with hd | hr | hq
    · rw [hd]
    · rw [hr]
      cases (clearHour bids da (averageRTToHourly rt) h).daPrice <;> rfl
    · cases hd : (clearHour bids da (averageRTToHourly rt) h).daPrice <;>
        cases hr : (clearHour bids da (averageRTToHourly rt) h).avgRtPrice <;>
        simp [hq]

/-- C3: `getClearingSummary` returns the sum of the per-hour P&L values, the
sum of absolute cleared quantities, the sums of positive and of
absolute-negative cleared quantities, the counts of hours with nonzero
position and nonzero P&L, and the total P&L divided by the count of
P&L-active hours (0 when that count is 0). -/
theorem summarize_spec (hourlyClears : List HourlyClear) :
    (getClearingSummary hourlyClears).totalPnL = (hourlyClears.map (fun c => c.pnl)).sum
  ∧ (getClearingSummary hourlyClears).totalClearedQty
      = (hourlyClears.map (fun c => |c.clearedQty|)).sum
  ∧ (getClearingSummary hourlyClears).longQty
      = ((hourlyClears.filter (fun c => decide (0 < c.clearedQty))).map
          (fun c => c.clearedQty)).sum
  ∧ (getClearingSummary hourlyClears).shortQty
      = ((hourlyClears.filter (fun c => decide (c.clearedQty < 0))).map
          (fun c => |c.clearedQty|)).sum
  ∧ (getClearingSummary hourlyClears).hoursWithPositions
      = (hourlyClears.filter (fun c => decide (c.clearedQty ≠ 0))).length
  ∧ (getClearingSummary hourlyClears).hoursWithPnL
      = (hourlyClears.filter (fun c => decide (c.pnl ≠ 0))).length
  ∧ (getClearingSummary hourlyClears).avgPnLPerHour
      = (if (getClearingSummary hourlyClears).hoursWithPnL = 0 then 0
         else (getClearingSummary hourlyClears).totalPnL
                / ((getClearingSummary hourlyClears).hoursWithPnL : ℚ)) := by
  refine ⟨?_, ?_, ?_, ?_, rfl, rfl, ?_⟩
  · simpa using foldl_add_map_sum (fun c : HourlyClear => c.pnl) hourlyClears 0
  · simpa using foldl_add_map_sum (fun c : HourlyClear => |c.clearedQty|) hourlyClears 0
  · simpa using
      foldl_add_map_sum (fun c : HourlyClear => c.clearedQty)
        (hourlyClears.filter (fun c => decide (0 < c.clearedQty))) 0
  · simpa using
      foldl_add_map_sum (fun c : HourlyClear => |c.clearedQty|)
        (hourlyClears.filter (fun c => decide (c.clearedQty < 0))) 0
  · have havg : (getClearingSummary hourlyClears).avgPnLPerHour
        = if 0 < (getClearingSummary hourlyClears).hoursWithPnL
          then (getClearingSummary hourlyClears).totalPnL
                / ((getClearingSummary hourlyClears).hoursWithPnL : ℚ)
          else 0 := rfl
    rw [havg]
    rcases Nat.eq_zero_or_pos ((getClearingSummary hourlyClears).hoursWithPnL) with hL | hL
    · simp [hL]
    · simp [hL, Nat.pos_iff_ne_zero.1 hL]

/-- C4: the hours appearing in the `clearBids` output are exactly the union
of the hours carrying at least one bid and the hours carrying a DA price;
RT-only hours are never emitted and no hour is synthesized. -/
theorem clear_output_hours_union (bids : List Bid) (da rt : List MarketPrice) (h : Int) :
    (∃ rec ∈ clearBids bids da rt, rec.hourStart = h)
      ↔ ((∃ b ∈ bids, b.hourStart = h) ∨ ∃ p ∈ da, p.datetime_beginning_ept = h) := by
  rw [← mem_allClearingHours]
  constructor
  · rintro ⟨rec, hmem, rfl⟩
    obtain ⟨h', hh', rfl⟩ := mem_clearBids_iff.1 hmem
    simpa [clearHour_hourStart] using hh'
  · intro hh
    exact ⟨clearHour bids da (averageRTToHourly rt) h, mem_clearBids_iff.2 ⟨h, hh, rfl⟩,
      clearHour_hourStart _ _ _ _⟩

/-- C5: an output hour without a DA price has zero cleared quantity and zero
P&L whatever the bids; and with non-empty bids but empty DA and RT price
lists every output record has null prices, zero cleared quantity and zero
P&L — the engine is total, no input makes it fail. -/
theorem missing_data_graceful (bids : List Bid) (da rt : List MarketPrice)
    (rec rec' : HourlyClear) :
    (rec ∈ clearBids bids da rt → rec.daPrice = none →
        rec.clearedQty = 0 ∧ rec.pnl = 0)
  ∧ (rec' ∈ clearBids bids [] [] →
        rec'.daPrice = none ∧ rec'.avgRtPrice = none
          ∧ rec'.clearedQty = 0 ∧ rec'.pnl = 0) := by
  constructor
  · intro hmem hnone
    obtain ⟨h, hh, rfl⟩ := mem_clearBids_iff.1 hmem
    constructor
    · rw [clearHour_clearedQty, hnone]
    · rw [clearHour_pnl, hnone]
  · intro hmem
    obtain ⟨h, hh, rfl⟩ := mem_clearBids_iff.1 hmem
    exact ⟨rfl, rfl, rfl, rfl⟩

/-- C10: the hour keys of the `clearBids` output are pairwise distinct —
every hour appears in at most one output record, whatever duplication the
bid and DA price inputs contain. -/
theorem clear_output_hours_nodup (bids : List Bid) (da rt : List MarketPrice) :
    ((clearBids bids da rt).map (fun rec => rec.hourStart)).Nodup := by
  have hperm := (clearBids_perm bids da rt).map (fun rec => rec.hourStart)
  have heq : ((allClearingHours bids da).map
        (clearHour bids da (averageRTToHourly rt))).map (fun rec => rec.hourStart)
      = allClearingHours bids da := by
    rw [List.map_map]
    exact (List.map_id'' (fun a => clearHour_hourStart bids da (averageRTToHourly rt) a) _)
  rw [heq] at hperm
  exact hperm.symm.nodup (nodup_foldl_setAdd _ _ List.nodup_nil)

/-! Decomposition of `averageRTToHourly` used to reason about input order:
the insertion-ordered key list and the per-hour bucket record. -/

/-- The hour-start keys of `averageRTToHourly`, in insertion order. -/
def rtKeys (rtData : List MarketPrice) : List Int :=
  (rtData.map (fun p => hourStartOf p.datetime_beginning_ept)).foldl setAdd []

/-- The `HourlyAverage` record `averageRTToHourly` builds for one hour
bucket. -/
def rtBucket (rtData : List MarketPrice) (h : Int) : HourlyAverage :=
  let points := rtData.filter (fun p => hourStartOf p.datetime_beginning_ept == h)
  { hourStart := h
    avgPrice := (points.map (fun p => p.settlement_point_price)).sum / (points.length : ℚ)
    settlement_point := ((points.head?).map (fun p => p.settlement_point)).getD "" }

theorem averageRTToHourly_eq (rtData : List MarketPrice) :
    averageRTToHourly rtData
      = ((rtKeys rtData).map (rtBucket rtData)).insertionSort
          (fun a b => a.hourStart ≤ b.hourStart) := rfl

theorem rtBucket_hourStart (rtData : List MarketPrice) (h : Int) :
    (rtBucket rtData h).hourStart = h := rfl

theorem mem_rtKeys {rtData : List MarketPrice} {h : Int} :
    h ∈ rtKeys rtData ↔ ∃ p ∈ rtData, hourStartOf p.datetime_beginning_ept = h := by
  unfold rtKeys
  rw [mem_foldl_setAdd]
  simp [List.mem_map]

theorem nodup_rtKeys (rtData : List MarketPrice) : (rtKeys rtData).Nodup :=
  nodup_foldl_setAdd _ _ List.nodup_nil

/-! A list sorted by pairwise-distinct integer keys is determined by its
multiset of elements. -/

theorem sorted_lt_of_sorted_le_nodup {α : Type} (key : α → Int) {l : List α}
    (hs : l.Sorted (fun a b => key a ≤ key b)) (hn : (l.map key).Nodup) :
    l.Sorted (fun a b => key a < key b) := by
  have hp : l.Pairwise (fun a b => key a ≠ key b) := List.pairwise_map.1 hn
  exact (hs.and hp).imp (fun h => lt_of_le_of_ne h.1 h.2)

theorem eq_of_perm_sorted_keys {α : Type} (key : α → Int) {l1 l2 : List α}
    (hperm : l1.Perm l2)
    (hs1 : l1.Sorted (fun a b => key a ≤ key b))
    (hs2 : l2.Sorted (fun a b => key a ≤ key b))
    (hn : (l1.map key).Nodup) : l1 = l2 := by
  haveI : IsAntisymm α (fun a b => key a < key b) :=
    ⟨fun a b h1 h2 => absurd h2 (lt_asymm h1)⟩
  exact List.eq_of_perm_of_sorted hperm
    (sorted_lt_of_sorted_le_nodup key hs1 hn)
    (sorted_lt_of_sorted_le_nodup key hs2 (((hperm.map key).nodup_iff).1 hn))

theorem averageRTToHourly_sorted (rtData : List MarketPrice) :
    (averageRTToHourly rtData).Sorted (fun a b => a.hourStart ≤ b.hourStart) := by
  haveI : IsTotal HourlyAverage (fun a b => a.hourStart ≤ b.hourStart) :=
    ⟨fun a b => le_total _ _⟩
  haveI : IsTrans HourlyAverage (fun a b => a.hourStart ≤ b.hourStart) :=
    ⟨fun a b c => le_trans⟩
  rw [averageRTToHourly_eq]
  exact List.sorted_insertionSort _ _

theorem averageRTToHourly_keys_nodup (rtData : List MarketPrice) :
    ((averageRTToHourly rtData).map (fun a => a.hourStart)).Nodup := by
  have hperm := ((List.perm_insertionSort
      (fun a b : HourlyAverage => a.hourStart ≤ b.hourStart)
      ((rtKeys rtData).map (rtBucket rtData))).map (fun a => a.hourStart))
  rw [← averageRTToHourly_eq] at hperm
  rw [hperm.nodup_iff, List.map_map]
  exact List.map_id'' (fun a => rtBucket_hourStart rtData a) _ ▸ nodup_rtKeys rtData

theorem rtKeys_perm {rt1 rt2 : List MarketPrice} (hperm : rt1.Perm rt2) :
    (rtKeys rt1).Perm (rtKeys rt2) := by
  rw [List.perm_ext_iff_of_nodup (nodup_rtKeys rt1) (nodup_rtKeys rt2)]
  intro h
  rw [mem_rtKeys, mem_rtKeys]
  constructor
  · rintro ⟨p, hp, hk⟩
    exact ⟨p, hperm.mem_iff.1 hp, hk⟩
  · rintro ⟨p, hp, hk⟩
    exact ⟨p, hperm.mem_iff.2 hp, hk⟩

theorem rtBucket_eq_of_perm {rt1 rt2 : List MarketPrice} {sp : String} {h : Int}
    (hperm : rt1.Perm rt2) (hsp : ∀ p ∈ rt1, p.settlement_point = sp)
    (hk : h ∈ rtKeys rt1) : rtBucket rt1 h = rtBucket rt2 h := by
  have hpoints : (rt1.filter (fun p => hourStartOf p.datetime_beginning_ept == h)).Perm
      (rt2.filter (fun p => hourStartOf p.datetime_beginning_ept == h)) :=
    hperm.filter _
  obtain ⟨p, hp, hkey⟩ := mem_rtKeys.1 hk
  have hp1 : p ∈ rt1.filter (fun p => hourStartOf p.datetime_beginning_ept == h) :=
    List.mem_filter.2 ⟨hp, by simp [hkey]⟩
  obtain ⟨y1, t1, he1⟩ := List.exists_cons_of_ne_nil (List.ne_nil_of_mem hp1)
  obtain ⟨y2, t2, he2⟩ :=
    List.exists_cons_of_ne_nil (List.ne_nil_of_mem (hpoints.mem_iff.1 hp1))
  have hy1 : y1.settlement_point = sp := by
    have : y1 ∈ rt1.filter (fun p => hourStartOf p.datetime_beginning_ept == h) := by
      rw [he1]; exact List.mem_cons_self _ _
    exact hsp y1 (List.mem_filter.1 this).1
  have hy2 : y2.settlement_point = sp := by
    have : y2 ∈ rt2.filter (fun p => hourStartOf p.datetime_beginning_ept == h) := by
      rw [he2]; exact List.mem_cons_self _ _
    have hy2mem : y2 ∈ rt2 := (List.mem_filter.1 this).1
    exact hsp y2 (hperm.mem_iff.2 hy2mem)
  unfold rtBucket
  simp only [HourlyAverage.mk.injEq]
  refine ⟨trivial, ?_, ?_⟩
  · rw [(hpoints.map (fun p => p.settlement_point_price)).sum_eq, hpoints.length_eq]
  · rw [he1, he2]
    simp [hy1, hy2]

/-- C8: `averageRTToHourly` is independent of the order of its input — on
any two permutations of a sample list that shares a single settlement
point, it returns the same (hour-sorted) output list. -/
theorem averageToHourly_order_invariant (rt1 rt2 : List MarketPrice) (sp : String)
    (hperm : rt1.Perm rt2) (hsp : ∀ p ∈ rt1, p.settlement_point = sp) :
    averageRTToHourly rt1 = averageRTToHourly rt2 := by
  refine eq_of_perm_sorted_keys (fun a => a.hourStart) ?_
    (averageRTToHourly_sorted rt1) (averageRTToHourly_sorted rt2)
    (averageRTToHourly_keys_nodup rt1)
  have h1 : (averageRTToHourly rt1).Perm ((rtKeys rt1).map (rtBucket rt1)) := by
    rw [averageRTToHourly_eq]
    exact List.perm_insertionSort _ _
  have h2 : (rtKeys rt1).map (rtBucket rt1) = (rtKeys rt1).map (rtBucket rt2) :=
    List.map_congr_left fun h hh => rtBucket_eq_of_perm hperm hsp hh
  have h3 : ((rtKeys rt1).map (rtBucket rt2)).Perm ((rtKeys rt2).map (rtBucket rt2)) :=
    (rtKeys_perm hperm).map _
  have h4 : ((rtKeys rt2).map (rtBucket rt2)).Perm (averageRTToHourly rt2) := by
    rw [averageRTToHourly_eq]
    exact (List.perm_insertionSort _ _).symm
  rw [h2] at h1
  exact (h1.trans h3).trans h4

/-! Behaviour of the store actions on the bid list. -/

theorem Store.addBid_cap_rejects (s : Store.State) (bidData : Bid) (newId : String)
    (hcap : 10 ≤ (s.bids.filter (fun b => b.hourStart == bidData.hourStart)).length) :
    (Store.addBid s bidData newId).bids = s.bids
      ∧ (Store.addBid s bidData newId).error = some "Maximum 10 bids per hour allowed" := by
  unfold Store.addBid
  dsimp only
  split
  · exact ⟨rfl, rfl⟩
  · next hneg => exact absurd hcap hneg

theorem Store.addBid_appends (s : Store.State) (bidData : Bid) (newId : String)
    (hcap : ¬ 10 ≤ (s.bids.filter (fun b => b.hourStart == bidData.hourStart)).length) :
    (Store.addBid s bidData newId).bids = s.bids ++ [{ bidData with id := newId }] := by
  unfold Store.addBid
  dsimp only
  split
  · next hpos => exact absurd hpos hcap
  · rfl

theorem Store.removeBid_bids (s : Store.State) (bidId : String) :
    (Store.removeBid s bidId).bids = s.bids.filter (fun bid => bid.id != bidId) := rfl

/-- C9: in every store state reachable by the bid actions, at most 10 bids
exist for any hour; and `addBid` on a state already holding 10 bids for the
new bid's hour leaves the bid list unchanged and sets the error message
instead. -/
theorem store_bids_per_hour_cap (s : Store.State) (hs : Store.Reachable s) :
    (∀ h : Int, (s.bids.filter (fun b => b.hourStart == h)).length ≤ 10)
  ∧ (∀ (s' : Store.State) (bidData : Bid) (newId : String),
      (s'.bids.filter (fun b => b.hourStart == bidData.hourStart)).length = 10 →
      (Store.addBid s' bidData newId).bids = s'.bids
        ∧ (Store.addBid s' bidData newId).error
            = some "Maximum 10 bids per hour allowed") := by
  constructor
  · induction hs with
    | init =>
      intro h
      simp [Store.initialState]
    | addBid s bidData newId hr ih =>
      intro h
      by_cases hcap : 10 ≤ (s.bids.filter (fun b => b.hourStart == bidData.hourStart)).length
      · rw [(Store.addBid_cap_rejects s bidData newId hcap).1]
        exact ih h
      · rw [Store.addBid_appends s bidData newId hcap, List.filter_append, List.length_append]
        by_cases hh : bidData.hourStart = h
        · subst hh
          have hlen : (s.bids.filter (fun b => b.hourStart == bidData.hourStart)).length ≤ 9 := by
            omega
          have hone :
              (List.filter (fun b => b.hourStart == bidData.hourStart)
                [({ bidData with id := newId } : Bid)]).length ≤ 1 :=
            le_trans (List.length_filter_le _ _) (by simp)
          omega
        · have hzero :
              (List.filter (fun b => b.hourStart == h)
                [({ bidData with id := newId } : Bid)]).length = 0 := by
            simp [List.filter_cons, hh]
          rw [hzero]
          simpa using ih h
    | removeBid s bidId hr ih =>
      intro h
      rw [Store.removeBid_bids]
      have hsub :=
        (List.filter_sublist (p := fun bid => bid.id != bidId) s.bids).filter
          (fun b => b.hourStart == h)
      exact le_trans hsub.length_le (ih h)
    | clearBids s hr ih =>
      intro h
      simp [Store.clearBids]
    | resetForNewDate s hr ih =>
      intro h
      simp [Store.resetForNewDate]
  · intro s' bidData newId hcap
    exact Store.addBid_cap_rejects s' bidData newId (le_of_eq hcap.symm)

/-- C7 counterexample: with the runtime's default zone at UTC (offset 0) —
as on a typical server — the cutoff computed for trading date 100 falls on
market-local calendar day 99, not 100: `DateTime.fromISO` interprets the
bare date as start-of-day in the RUNTIME zone, not in market-local time, so
the claimed same-calendar-date property fails. -/
theorem cutoff_same_date_counterexample :
    ¬ (marketLocalDay (getCutoffTime 0 100).instant = 100
        ∧ marketLocalMinuteOfDay (getCutoffTime 0 100).instant
            = CUTOFF_HOUR * 60 + CUTOFF_MINUTE) := by
  decide

/-- C7 (amended): `getCutoffStatus` parses the bare trading date as
start-of-day in the RUNTIME's default zone; when that zone coincides with
the market zone the cutoff instant is 11:00:00.000 market-local time on the
given trading date; and for EVERY runtime zone, `isCutoffPassed` is the
strict comparison `now > cutoff`, an instant exactly at the cutoff still
counting as open. -/
theorem cutoff_status_amended (systemOffset tradingDate now : Int) :
    (systemOffset = MARKET_TZ_OFFSET →
        marketLocalDay (getCutoffTime systemOffset tradingDate).instant = tradingDate
      ∧ marketLocalMinuteOfDay (getCutoffTime systemOffset tradingDate).instant
          = CUTOFF_HOUR * 60 + CUTOFF_MINUTE)
  ∧ ((getCutoffStatus now systemOffset tradingDate).isCutoffPassed = true
      ↔ (getCutoffTime systemOffset tradingDate).instant < now)
  ∧ (now = (getCutoffTime systemOffset tradingDate).instant →
      (getCutoffStatus now systemOffset tradingDate).isCutoffPassed = false) := by
  refine ⟨fun hzone => ?_, ?_, fun hnow => ?_⟩
  · subst hzone
    simp only [getCutoffTime, dtSetHourMinute, setZone, fromISODate,
      marketLocalDay, marketLocalMinuteOfDay, MARKET_TZ_OFFSET, CUTOFF_HOUR, CUTOFF_MINUTE]
    constructor <;> omega
  · simp only [getCutoffStatus, decide_eq_true_iff]
  · simp only [getCutoffStatus]
    rw [decide_eq_false_iff_not]
    omega

/-! The reference scenario of the unit tests (clearing.test.ts): hours
08:00 and 09:00 market-local of a trading day.  With market-local day 0,
08:00 local is minute 480 local, i.e. the instant 840 (UTC-6), and 09:00
local is the instant 900. -/

/-- Scenario bids: BUY 100 MWh at 60 for 08:00, SELL 50 MWh at 50 for
08:00, BUY 75 MWh at 40 for 09:00. -/
def egBids : List Bid :=
  [ { id := "1", hourStart := 840, side := Side.BUY, price := 60, qtyMWh := 100 },
    { id := "2", hourStart := 840, side := Side.SELL, price := 50, qtyMWh := 50 },
    { id := "3", hourStart := 900, side := Side.BUY, price := 40, qtyMWh := 75 } ]

/-- Scenario DA prices: 55 at 08:00, 35 at 09:00. -/
def egDAPrices : List MarketPrice :=
  [ { datetime_beginning_ept := 840, datetime_beginning_utc := 840,
      settlement_point := "HB_HOUSTON", settlement_point_price := 55 },
    { datetime_beginning_ept := 900, datetime_beginning_utc := 900,
      settlement_point := "HB_HOUSTON", settlement_point_price := 35 } ]

/-- Scenario RT samples: the hourly averages 60 at 08:00 and 40 at 09:00. -/
def egRTPrices : List MarketPrice :=
  [ { datetime_beginning_ept := 840, datetime_beginning_utc := 840,
      settlement_point := "HB_HOUSTON", settlement_point_price := 60 },
    { datetime_beginning_ept := 900, datetime_beginning_utc := 900,
      settlement_point := "HB_HOUSTON", settlement_point_price := 40 } ]

theorem clearBids_eg :
    clearBids egBids egDAPrices egRTPrices
      = [ { hourStart := 840, daPrice := some 55, avgRtPrice := some 60,
            clearedQty := 50, pnl := 250 },
          { hourStart := 900, daPrice := some 35, avgRtPrice := some 40,
            clearedQty := 75, pnl := 375 } ] := by
  norm_num [egBids, egDAPrices, egRTPrices, clearBids, averageRTToHourly, clearHour,
    allClearingHours, setAdd, hourStartOf, MARKET_TZ_OFFSET, qtyContribution, shouldBidClear,
    List.insertionSort, List.orderedInsert, List.filter_cons, List.find?_cons, List.getLast?]

theorem clearBids_eg_empty :
    clearBids egBids [] []
      = [ { hourStart := 840, daPrice := none, avgRtPrice := none,
            clearedQty := 0, pnl := 0 },
          { hourStart := 900, daPrice := none, avgRtPrice := none,
            clearedQty := 0, pnl := 0 } ] := by
  norm_num [egBids, clearBids, averageRTToHourly, clearHour,
    allClearingHours, setAdd, hourStartOf, MARKET_TZ_OFFSET, qtyContribution, shouldBidClear,
    List.insertionSort, List.orderedInsert, List.filter_cons, List.find?_cons, List.getLast?]

/-- C6: on the reference scenario, `clearBids` yields clearedQty +50 and
pnl 250 for hour 08:00 and clearedQty +75 and pnl 375 for hour 09:00, and
`getClearingSummary` on that output yields total P&L 625, longQty 125,
shortQty 0 and 2 hours with positions. -/
theorem reference_scenario :
    clearBids egBids egDAPrices egRTPrices
      = [ { hourStart := 840, daPrice := some 55, avgRtPrice := some 60,
            clearedQty := 50, pnl := 250 },
          { hourStart := 900, daPrice := some 35, avgRtPrice := some 40,
            clearedQty := 75, pnl := 375 } ]
  ∧ (getClearingSummary (clearBids egBids egDAPrices egRTPrices)).totalPnL = 625
  ∧ (getClearingSummary (clearBids egBids egDAPrices egRTPrices)).longQty = 125
  ∧ (getClearingSummary (clearBids egBids egDAPrices egRTPrices)).shortQty = 0
  ∧ (getClearingSummary (clearBids egBids egDAPrices egRTPrices)).hoursWithPositions = 2 := by
  refine ⟨clearBids_eg, ?_, ?_, ?_, ?_⟩ <;> rw [clearBids_eg] <;>
    norm_num [getClearingSummary, calculateTotalPnL, calculateTotalClearedQty,
      List.filter_cons]

/-- Witness for C1 at the reference scenario's 08:00 record and DA price
55: the record is in the output, its DA price is present, and its cleared
quantity +50 is the sum of the signed quantities of the rule-satisfying
bids of that hour. -/
theorem clearing_rule_inclusive_witness :
    ((⟨840, some 55, some 60, 50, 250⟩ : HourlyClear)
        ∈ clearBids egBids egDAPrices egRTPrices)
  ∧ (⟨840, some 55, some 60, 50, 250⟩ : HourlyClear).daPrice = some 55
  ∧ (⟨840, some 55, some 60, 50, 250⟩ : HourlyClear).clearedQty
      = ((egBids.filter
            (fun b => b.hourStart == (⟨840, some 55, some 60, 50, 250⟩ : HourlyClear).hourStart)).map
          (fun b =>
            if (b.side = Side.BUY ∧ (55 : ℚ) ≤ b.price)
                ∨ (b.side = Side.SELL ∧ b.price ≤ (55 : ℚ))
            then qtyContribution b else 0)).sum := by
  have hmem : (⟨840, some 55, some 60, 50, 250⟩ : HourlyClear)
      ∈ clearBids egBids egDAPrices egRTPrices := by
    rw [clearBids_eg]
    exact List.mem_cons_self _ _
  exact ⟨hmem, rfl,
    (clearing_rule_inclusive egBids egDAPrices egRTPrices _ 55 hmem rfl).2⟩

/-- Witness for C2 at the reference scenario's 08:00 record: both prices
present, cleared quantity 50 nonzero, and the P&L 250 equals
50 × (60 − 55). -/
theorem pnl_formula_witness :
    ((⟨840, some 55, some 60, 50, 250⟩ : HourlyClear)
        ∈ clearBids egBids egDAPrices egRTPrices)
  ∧ (⟨840, some 55, some 60, 50, 250⟩ : HourlyClear).pnl
      = (⟨840, some 55, some 60, 50, 250⟩ : HourlyClear).clearedQty * (60 - 55) := by
  have hmem : (⟨840, some 55, some 60, 50, 250⟩ : HourlyClear)
      ∈ clearBids egBids egDAPrices egRTPrices := by
    rw [clearBids_eg]
    exact List.mem_cons_self _ _
  exact ⟨hmem,
    (pnl_formula egBids egDAPrices egRTPrices _ hmem).1 55 60 rfl rfl (by norm_num)⟩

/-- Witness for C5 at the scenario bids with empty price data: the 08:00
record is in the output with null prices, zero quantity and zero P&L. -/
theorem missing_data_graceful_witness :
    ((⟨840, none, none, 0, 0⟩ : HourlyClear) ∈ clearBids egBids [] [])
  ∧ (⟨840, none, none, 0, 0⟩ : HourlyClear).daPrice = none
  ∧ ((⟨840, none, none, 0, 0⟩ : HourlyClear).clearedQty = 0
      ∧ (⟨840, none, none, 0, 0⟩ : HourlyClear).pnl = 0)
  ∧ ((⟨840, none, none, 0, 0⟩ : HourlyClear).daPrice = none
      ∧ (⟨840, none, none, 0, 0⟩ : HourlyClear).avgRtPrice = none
      ∧ (⟨840, none, none, 0, 0⟩ : HourlyClear).clearedQty = 0
      ∧ (⟨840, none, none, 0, 0⟩ : HourlyClear).pnl = 0) := by
  have hmem : (⟨840, none, none, 0, 0⟩ : HourlyClear) ∈ clearBids egBids [] [] := by
    rw [clearBids_eg_empty]
    exact List.mem_cons_self _ _
  exact ⟨hmem, rfl,
    (missing_data_graceful egBids [] [] (⟨840, none, none, 0, 0⟩ : HourlyClear)
      (⟨840, none, none, 0, 0⟩ : HourlyClear)).1 hmem rfl,
    (missing_data_graceful egBids [] [] (⟨840, none, none, 0, 0⟩ : HourlyClear)
      (⟨840, none, none, 0, 0⟩ : HourlyClear)).2 hmem⟩

/-- Witness for C7: the same-date conclusion at the market-zone runtime
offset -360 and trading date 200, and the unconditional strict-comparison
conclusions at the NON-market UTC runtime offset 0, including the boundary
instant 287580 that equals the cutoff and still counts as open. -/
theorem cutoff_status_amended_witness :
    (marketLocalDay (getCutoffTime (-360) 200).instant = 200
      ∧ marketLocalMinuteOfDay (getCutoffTime (-360) 200).instant
          = CUTOFF_HOUR * 60 + CUTOFF_MINUTE)
  ∧ ((getCutoffStatus 300000 0 200).isCutoffPassed = true
      ↔ (getCutoffTime 0 200).instant < 300000)
  ∧ (getCutoffStatus 287580 0 200).isCutoffPassed = false :=
  ⟨(cutoff_status_amended (-360) 200 300000).1 (by decide),
   (cutoff_status_amended 0 200 300000).2.1,
   (cutoff_status_amended 0 200 287580).2.2 (by decide)⟩

/-- Witness for C8: the reversed scenario RT list is a permutation of the
original sharing the settlement point, and the averaged outputs coincide. -/
theorem averageToHourly_order_invariant_witness :
    (egRTPrices.Perm egRTPrices.reverse)
  ∧ (∀ p ∈ egRTPrices, p.settlement_point = "HB_HOUSTON")
  ∧ averageRTToHourly egRTPrices = averageRTToHourly egRTPrices.reverse := by
  have hperm : egRTPrices.Perm egRTPrices.reverse := (List.reverse_perm egRTPrices).symm
  have hsp : ∀ p ∈ egRTPrices, p.settlement_point = "HB_HOUSTON" := by
    intro p hp
    simp only [egRTPrices, List.mem_cons, List.not_mem_nil, or_false] at hp
    rcases hp with rfl | rfl <;> rfl
  exact ⟨hperm, hsp,
    averageToHourly_order_invariant egRTPrices egRTPrices.reverse "HB_HOUSTON" hperm hsp⟩

/-- A store state holding exactly 10 bids for hour 840, used to witness the
cap rejection. -/
def egFullState : Store.State :=
  { bids := List.replicate 10 ⟨"b", 840, Side.BUY, 1, 1⟩
    daHourly := []
    rtFiveMin := []
    hourlyClears := []
    error := none }

/-- The eleventh bid for hour 840 that the full state must reject. -/
def egEleventhBid : Bid := ⟨"c", 840, Side.SELL, 2, 3⟩

/-- Witness for C9: the initial store state is reachable and satisfies the
cap at hour 840, and `addBid` on a state holding exactly 10 bids for hour
840 leaves its bid list unchanged and sets the error message. -/
theorem store_bids_per_hour_cap_witness :
    Store.Reachable Store.initialState
  ∧ ((Store.initialState.bids.filter (fun b => b.hourStart == 840)).length ≤ 10)
  ∧ ((egFullState.bids.filter (fun b => b.hourStart == egEleventhBid.hourStart)).length = 10)
  ∧ ((Store.addBid egFullState egEleventhBid "x").bids = egFullState.bids
      ∧ (Store.addBid egFullState egEleventhBid "x").error
          = some "Maximum 10 bids per hour allowed") := by
  have hcap : (egFullState.bids.filter
      (fun b => b.hourStart == egEleventhBid.hourStart)).length = 10 := by
    simp [egFullState, egEleventhBid, List.filter_replicate]
  have happ := store_bids_per_hour_cap Store.initialState Store.Reachable.init
  exact ⟨Store.Reachable.init, happ.1 840, hcap, happ.2 _ _ "x" hcap⟩
